import Mathlib

/-!
# Verification of the annotator-store routing and dispatch layer

This file embeds the request-routing and dispatch behaviour of the
annotator store (`src/annotator/store.py`, together with the legacy
mapper behaviour documented by `src/annotater/store_test.py`).

The URL pattern-matching machinery itself lives in the third-party
`routes` library and in `annotater/store.py`, neither of which is under
`src/`; following the specification, the route table (§4.1), the matcher
(§4.2) and the generator (§4.3) are modelled from the spec's words and
are marked as such in their doc comments.  Everything in the store layer
(`AnnotatorStore.__init__`, `__call__`, `index`, `create`, `search`, the
status codes) is translated directly from `src/annotator/store.py`.

Paths are treated as lists of characters; a path segment is a list of
characters not containing `'/'`.
-/

set_option maxRecDepth 4096

namespace AnnStore

/-- A path segment: the characters between two slashes. -/
abbrev Seg := List Char

/-- Auxiliary splitter: accumulates the current segment (reversed). -/
def splitSegsAux : List Char → List Char → List Seg
  | [], acc => [acc.reverse]
  | c :: rest, acc =>
      if c = '/' then acc.reverse :: splitSegsAux rest []
      else splitSegsAux rest (c :: acc)

/-- Split a raw path into its `'/'`-separated segments.
`"/a/b" ↦ ["", "a", "b"]`, `"//x" ↦ ["", "", "x"]`. -/
def splitSegs (cs : List Char) : List Seg :=
  splitSegsAux cs []

/-- Does the character list contain two consecutive slashes? -/
def hasDoubleSlash : List Char → Bool
  | [] => false
  | [_] => false
  | c :: d :: rest => (decide (c = '/') && decide (d = '/')) || hasDoubleSlash (d :: rest)

/-- Render a segment list as an absolute path:
`["a","b"] ↦ "/a/b"`, `[] ↦ ""`. -/
def renderSegs : List Seg → List Char
  | [] => []
  | s :: rest => '/' :: (s ++ renderSegs rest)

/-- A well-formed segment: non-empty and slash-free. -/
def wfSeg (s : Seg) : Prop := s ≠ [] ∧ '/' ∉ s

instance (s : Seg) : Decidable (wfSeg s) := by
  unfold wfSeg; infer_instance

/-- The logical actions of the resource (spec §3). -/
inductive Action where
  | index | show | new | create | edit | update | delete | search | cors_preflight
deriving DecidableEq, Repr

/-- The HTTP methods the route table distinguishes. `HEAD` stands in for
any further method, which no route accepts. -/
inductive Method where
  | GET | POST | PUT | DELETE | OPTIONS | HEAD
deriving DecidableEq, Repr

/-- A route-pattern segment: a literal, or the single `id` placeholder. -/
inductive Pat where
  | lit (s : Seg)
  | var
deriving DecidableEq, Repr

/-- A route: one allowed method, a pattern, and a target action.
Rows of the spec's table allowing two methods (PUT/POST → update) are
split into one route per method. -/
structure Route where
  method : Method
  pats : List Pat
  action : Action
deriving DecidableEq, Repr

/-- Per-instance resource configuration (spec §3): the mount point as a
segment list (mount point `"/"` is `[]`) and the singular/plural names. -/
structure Config where
  mount : List Seg
  sing : Seg
  plur : Seg
deriving DecidableEq, Repr

/-- A well-formed configuration: all mount segments and both resource
names are non-empty and slash-free. -/
def WFConfig (c : Config) : Prop :=
  (∀ s ∈ c.mount, wfSeg s) ∧ wfSeg c.sing ∧ wfSeg c.plur

instance (c : Config) : Decidable (WFConfig c) := by
  unfold WFConfig; infer_instance

def sSearch : Seg := "search".data
def sNew : Seg := "new".data
def sEdit : Seg := "edit".data
def sDelete : Seg := "delete".data

/-- Modelled from the spec (§4.1): the fixed route table.  The concrete
route construction is `routes.Mapper.resource` (third-party) plus the
legacy mapper of `annotater/store.py`, which is not under `src/`.
Routes are listed with literal-segment patterns before the placeholder
patterns of the same shape, realizing the spec's rule that literal
segments are strictly more specific than placeholders. -/
def buildTable (c : Config) : List Route :=
  let base := c.mount.map Pat.lit ++ [Pat.lit c.plur]
  [ ⟨.GET, base ++ [.lit sSearch], .search⟩,
    ⟨.GET, base ++ [.lit sNew], .new⟩,
    ⟨.GET, base ++ [.lit sEdit, .var], .edit⟩,
    ⟨.GET, base ++ [.lit sDelete, .var], .delete⟩,
    ⟨.GET, base, .index⟩,
    ⟨.POST, base, .create⟩,
    ⟨.GET, base ++ [.var], .show⟩,
    ⟨.PUT, base ++ [.var], .update⟩,
    ⟨.POST, base ++ [.var], .update⟩,
    ⟨.DELETE, base ++ [.var], .delete⟩,
    ⟨.OPTIONS, base, .cors_preflight⟩,
    ⟨.OPTIONS, base ++ [.var], .cors_preflight⟩ ]

/-- The legacy verb-in-path delete route `GET {mount}/{plural}/delete/{id}`. -/
def legacyDeleteRoute (c : Config) : Route :=
  ⟨.GET, c.mount.map Pat.lit ++ [Pat.lit c.plur, .lit sDelete, .var], .delete⟩

/-- A match result: the resolved action, and the bound `id` if the
matched pattern has the placeholder (spec §3: never coerced, absent is
`none`, never the empty string). -/
structure MatchResult where
  action : Action
  id : Option Seg
deriving DecidableEq, Repr

/-- Match one pattern against a segment list (spec §4.2): equal segment
count, literals match exactly, the placeholder matches any non-empty
segment and binds it.  Returns the `id` binding on success. -/
def patMatch : List Pat → List Seg → Option (Option Seg)
  | [], [] => some none
  | .lit l :: ps, s :: ss => if s = l then patMatch ps ss else none
  | .var :: ps, s :: ss =>
      if s = [] then none
      else
        match patMatch ps ss with
        | some _ => some (some s)
        | none => none
  | _, _ => none

/-- Match one route: the method must be the route's method. -/
def routeMatch (r : Route) (m : Method) (segs : List Seg) : Option MatchResult :=
  if r.method = m then (patMatch r.pats segs).map (fun b => ⟨r.action, b⟩) else none

/-- First-match scan over the table (the table order realizes the
literal-beats-placeholder specificity rule of spec §4.2). -/
def scanRoutes : List Route → Method → List Seg → Option MatchResult
  | [], _, _ => none
  | r :: rs, m, segs =>
      match routeMatch r m segs with
      | some res => some res
      | none => scanRoutes rs m segs

/-- Normalization at segment level: a single trailing slash produces a
final empty segment, which is dropped (spec §4.2: remove a single
trailing slash; internal repeated slashes are NOT collapsed). -/
def normTrail (segs : List Seg) : List Seg :=
  if segs.getLast? = some [] then segs.dropLast else segs

/-- The raw characters of the path `{mount}/{plural}/`. -/
def pathTolerance (c : Config) : List Char :=
  renderSegs (c.mount ++ [c.plur]) ++ ['/']

/-- Modelled from the spec (§4.2 and §8.4): the matcher.  The one-off
legacy tolerance rule — the exact path `{mount}/{plural}/` yields
`{action: delete, id: null}` — is checked first; otherwise the path is
split into segments (an absolute path starts with an empty segment), a
single trailing empty segment is dropped, and the table is scanned. -/
def matchPath (c : Config) (m : Method) (p : String) : Option MatchResult :=
  if p.data = pathTolerance c then some ⟨.delete, none⟩
  else
    match splitSegs p.data with
    | [] :: rest => scanRoutes (buildTable c) m (normTrail rest)
    | _ => none

/-- Does the route's pattern contain the `id` placeholder? -/
def needsId (r : Route) : Bool :=
  r.pats.any (fun p => match p with | .var => true | .lit _ => false)

/-- Substitute the `id` binding into a pattern. -/
def substPats (ps : List Pat) (idv : Option Seg) : List Seg :=
  ps.map (fun p => match p with | .lit l => l | .var => idv.getD [])

/-- Modelled from the spec (§4.3): the generator's route search order —
the REST-verb member routes (`DELETE` delete, `PUT` update) are
preferred over the legacy GET verb-in-path routes when no method hint
is supplied. -/
def genTable (c : Config) : List Route :=
  let base := c.mount.map Pat.lit ++ [Pat.lit c.plur]
  [ ⟨.GET, base, .index⟩,
    ⟨.POST, base, .create⟩,
    ⟨.GET, base ++ [.lit sSearch], .search⟩,
    ⟨.GET, base ++ [.var], .show⟩,
    ⟨.PUT, base ++ [.var], .update⟩,
    ⟨.POST, base ++ [.var], .update⟩,
    ⟨.DELETE, base ++ [.var], .delete⟩,
    ⟨.OPTIONS, base, .cors_preflight⟩,
    ⟨.OPTIONS, base ++ [.var], .cors_preflight⟩,
    ⟨.GET, base ++ [.lit sNew], .new⟩,
    ⟨.GET, base ++ [.lit sEdit, .var], .edit⟩,
    ⟨.GET, base ++ [.lit sDelete, .var], .delete⟩ ]

/-- Modelled from the spec (§4.3): reverse URL generation.  Picks the
first route for the action whose method agrees with the hint (if any)
and whose parameter requirement matches the supplied `id`; `none` is
the spec's `NoRouteError` (unknown action or missing required `id`). -/
def generate (c : Config) (a : Action) (idv : Option Seg) (hint : Option Method) :
    Option (List Seg) :=
  match (genTable c).find? (fun r =>
      decide (r.action = a) &&
      (match hint with | some m => decide (r.method = m) | none => true) &&
      (needsId r == idv.isSome)) with
  | some r => some (substPats r.pats idv)
  | none => none

/-- Named-route generation, as used by `self.url(name, id=...)` in
`AnnotatorStore.create`.  `routes.Mapper.resource` names the member
(show) route after the singular resource name and the collection route
after the plural; an unregistered name produces no named route (the
library falls back to treating the argument as a literal static URL,
which is never a route of the table). -/
def urlByName (c : Config) (name : Seg) (idv : Option Seg) : Option (List Seg) :=
  if name = c.sing then
    match idv with
    | some i => some (c.mount ++ [c.plur, i])
    | none => none
  else if name = c.plur then some (c.mount ++ [c.plur])
  else none

/-! ## The store layer, translated from `src/annotator/store.py` -/

/-- A stored entity: a server-assigned identifier plus a flat mapping of
fields.  Ids are kept as raw path segments (the router never parses
them as numbers). -/
structure Anno where
  id : Seg
  fields : List (String × String)
deriving DecidableEq, Repr

/-- The persistent session state: the stored entities plus the
identifier the next commit will assign. -/
structure Store where
  annos : List Anno
  freshId : Seg
deriving DecidableEq, Repr

/-- Modelled from the spec (§6): `Annotation.from_dict` lives in
`annotator/model.py`, which is not under `src/`.  Per the spec entities
"serialize to/from a flat mapping (`as_dict`/`from_dict`-equivalent)":
pure deserialization, no session registration; the id is assigned at
commit. -/
def fromDict (d : List (String × String)) : Anno := ⟨[], d⟩

/-- The parsed value of the `json` request parameter: a single object or
a list of objects (`json.loads` in `AnnotatorStore.create`). -/
inductive Payload where
  | obj (d : List (String × String))
  | arr (ds : List (List (String × String)))
deriving DecidableEq, Repr

/-- The name string hardcoded in `self.url('annotation', id=anno.id)` at
`store.py:145`. -/
def annoName : Seg := "annotation".data

/-- The response produced by `AnnotatorStore.create`. -/
structure CreateResp where
  status : Nat
  location : Option String
deriving DecidableEq, Repr

/-- `AnnotatorStore.create` (`store.py:129-147`).  For a list payload
the loop `for objdict in params: anno = Annotation.from_dict(objdict)`
rebinds `anno` each iteration, and only the final `anno` reaches
`self.session.add`; an empty list leaves `anno` unbound and
`session.add(anno)` raises `NameError` (modelled as `none`).  On
success the status is 303 and the `Location` header is generated from
the hardcoded route name `'annotation'`. -/
def createHandler (c : Config) (st : Store) (p : Payload) :
    Option (Store × CreateResp) :=
  let anno? : Option Anno :=
    match p with
    | .obj d => some (fromDict d)
    | .arr ds => (ds.map fromDict).getLast?
  match anno? with
  | none => none
  | some a =>
      let a' : Anno := ⟨st.freshId, a.fields⟩
      some (⟨st.annos ++ [a'], st.freshId⟩,
            ⟨303, (urlByName c annoName (some st.freshId)).map
                    (fun segs => (⟨renderSegs segs⟩ : String))⟩)

/-- Does an entity satisfy all exact-match filters (`q.filter_by`)? -/
def annoMatches (flt : List (String × String)) (a : Anno) : Bool :=
  flt.all (fun kv => a.fields.lookup kv.1 == some kv.2)

/-- An entity rendered for a search result row: the full field dict when
`all_fields` is set, else just the id (`store.py:208-211`). -/
def searchRow (allFields : Bool) (a : Anno) : List (String × Seg) :=
  if allFields then ("id", a.id) :: a.fields.map (fun kv => (kv.1, kv.2.data))
  else [("id", a.id)]

/-- The body of a search response. -/
structure SearchOut where
  total : Nat
  results : List (List (String × Seg))
deriving DecidableEq, Repr

/-- `AnnotatorStore.search` (`store.py:185-218`): filter by the
non-reserved parameters, count the filtered rows for `total`, then
apply offset and limit to the returned rows; a negative limit is
replaced by `None`, i.e. no bound. -/
def searchAction (st : Store) (flt : List (String × String)) (offset : Nat)
    (lim : Int) (allFields : Bool) : SearchOut :=
  let matched := st.annos.filter (annoMatches flt)
  let limited :=
    if lim < 0 then matched.drop offset
    else (matched.drop offset).take lim.toNat
  ⟨matched.length, limited.map (searchRow allFields)⟩

/-- `AnnotatorStore.index` (`store.py:113-117`):
`query(Annotation).limit(100).all()`, each row rendered `as_dict`. -/
def indexAction (st : Store) : List (List (String × Seg)) :=
  (st.annos.take 100).map (searchRow true)

/-! ## Constructor argument handling (`AnnotatorStore.__init__`) -/

/-- The error the constructor can actually raise: the tuple unpacking
`sing, plur = resource_name` fails with `ValueError` when the tuple does
not have exactly two elements.  No `ConfigurationError` type exists in
the code. -/
inductive InitErr where
  | valueError
deriving DecidableEq, Repr

/-- `mount_point if mount_point.startswith('/') else '/' + mount_point`
(`store.py:30`). -/
def normMount (mp : String) : String :=
  if mp.startsWith "/" then mp else "/" ++ mp

/-- `AnnotatorStore.__init__` argument handling (`store.py:22-31`): the
mount point gets a leading slash if absent; the resource name is
unpacked into (singular, plural).  No emptiness validation occurs. -/
def initStore (mp : String) (rn : List String) :
    Except InitErr (String × String × String) :=
  match rn with
  | [sing, plur] => .ok (normMount mp, sing, plur)
  | _ => .error .valueError

/-! ## The WSGI dispatch shell (`AnnotatorStore.__call__`) -/

/-- The request data the dispatch shell consumes.  `fmt` is the
`format` query parameter (absent means the default `'json'`); `payload`
is the parsed `json` parameter; `formParams` stands for the plain form
parameters used when `json` is absent. -/
structure Request where
  method : Method
  path : String
  fmt : Option String
  payload : Option Payload
  formParams : List (String × String)
  filters : List (String × String)
  offset : Nat
  limit : Int
  allFields : Bool
deriving Repr

/-- A dispatch-shell response: status code and optional Location. -/
structure HResp where
  status : Nat
  location : Option String
deriving DecidableEq, Repr

/-- Look up an entity by the bound id (`query(Annotation).get(id)`);
a missing binding finds nothing. -/
def findAnno (st : Store) (idv : Option Seg) : Option Anno :=
  match idv with
  | some i => st.annos.find? (fun a => a.id == i)
  | none => none

/-- Invoke the handler for the matched action (`__call__` lines 74-81
and the action methods).  `new` and `edit` have no handler method on
`AnnotatorStore`, so dispatching to them fails the request (500). -/
def dispatchAction (c : Config) (st : Store) (req : Request) (md : MatchResult) :
    Store × HResp :=
  match md.action with
  | .index => (st, ⟨200, none⟩)
  | .show =>
      match findAnno st md.id with
      | some _ => (st, ⟨200, none⟩)
      | none => (st, ⟨404, none⟩)
  | .create =>
      match createHandler c st (req.payload.getD (.obj req.formParams)) with
      | some (st', r) => (st', ⟨r.status, r.location⟩)
      | none => (st, ⟨500, none⟩)
  | .update =>
      match findAnno st md.id with
      | some _ => (st, ⟨200, none⟩)
      | none => (st, ⟨404, none⟩)
  | .delete =>
      match findAnno st md.id with
      | some a => (⟨st.annos.filter (fun b => !(b.id == a.id)), st.freshId⟩, ⟨204, none⟩)
      | none => (st, ⟨404, none⟩)
  | .search => (st, ⟨200, none⟩)
  | .cors_preflight => (st, ⟨204, none⟩)
  | .new => (st, ⟨500, none⟩)
  | .edit => (st, ⟨500, none⟩)

/-- `AnnotatorStore.__call__` (`store.py:50-86`): the route is matched
first, but the `format` check (line 69) returns 500 before the match
result is consulted; only then is a matched action dispatched, or 404
produced on no match. -/
def handleRequest (c : Config) (st : Store) (req : Request) : Store × HResp :=
  let md := matchPath c req.method req.path
  if (req.fmt.getD "json") ≠ "json" then (st, ⟨500, none⟩)
  else
    match md with
    | some m => dispatchAction c st req m
    | none => (st, ⟨404, none⟩)

/-- The default configuration of `AnnotatorStore.__init__`:
mount point `/`, resource name `('annotation', 'annotations')`. -/
def defaultCfg : Config := ⟨[], "annotation".data, "annotations".data⟩

/-! ## Structural lemmas about path splitting -/

theorem splitSegsAux_shape (cs : List Char) :
    ∀ acc, ∃ h t, splitSegsAux cs [] = h :: t ∧
      splitSegsAux cs acc = (acc.reverse ++ h) :: t := by
  induction cs with
  | nil => intro acc; exact ⟨[], [], rfl, by simp [splitSegsAux]⟩
  | cons c rest ih =>
    intro acc
    by_cases hc : c = '/'
    · subst hc
      exact ⟨[], splitSegsAux rest [], by simp [splitSegsAux], by simp [splitSegsAux]⟩
    · obtain ⟨h, t, h1, h2⟩ := ih [c]
      obtain ⟨h', t', h1', h2'⟩ := ih (c :: acc)
      rw [h1] at h1'
      injection h1' with e1 e2
      subst e1; subst e2
      refine ⟨c :: h, t, ?_, ?_⟩
      · simpa [splitSegsAux, hc] using h2
      · simp [splitSegsAux, hc, h2']

theorem splitSegs_cons_slash (rest : List Char) :
    splitSegs ('/' :: rest) = [] :: splitSegs rest := by
  simp [splitSegs, splitSegsAux]

theorem splitSegs_cons_ne (c : Char) (rest : List Char) (hc : c ≠ '/') :
    ∃ h t, splitSegs rest = h :: t ∧ splitSegs (c :: rest) = (c :: h) :: t := by
  obtain ⟨h, t, h1, h2⟩ := splitSegsAux_shape rest [c]
  exact ⟨h, t, h1, by simpa [splitSegs, splitSegsAux, hc] using h2⟩

/-- Splitting never produces the empty list of segments. -/
theorem splitSegs_ne_nil (cs : List Char) : splitSegs cs ≠ [] := by
  obtain ⟨h, t, h1, -⟩ := splitSegsAux_shape cs []
  simp [splitSegs, h1]

/-- A slash-free prefix is absorbed into the first segment. -/
theorem splitSegs_noslash_append (s : List Char) (hs : '/' ∉ s) (t : List Char) :
    ∃ h tl, splitSegs t = h :: tl ∧ splitSegs (s ++ t) = (s ++ h) :: tl := by
  induction s with
  | nil =>
    obtain ⟨h, tl, h1, -⟩ := splitSegsAux_shape t []
    exact ⟨h, tl, h1, by simpa [splitSegs] using h1⟩
  | cons c s ih =>
    have hc : c ≠ '/' := by
      intro hh; subst hh; exact hs (List.mem_cons_self _ _)
    have hs' : '/' ∉ s := by
      intro hm; exact hs (List.mem_cons_of_mem _ hm)
    obtain ⟨h, tl, h1, h2⟩ := ih hs'
    obtain ⟨h', tl', h1', h2'⟩ := splitSegs_cons_ne c (s ++ t) hc
    rw [h2] at h1'
    injection h1' with e1 e2
    refine ⟨h, tl, h1, ?_⟩
    rw [List.cons_append, h2', ← e1, ← e2]
    simp

/-- Parsing a rendered well-formed segment list recovers it (prefixed by
the empty segment of the leading slash). -/
theorem splitSegs_render (segs : List Seg) (hw : ∀ s ∈ segs, wfSeg s) :
    splitSegs (renderSegs segs) = [] :: segs := by
  induction segs with
  | nil => simp [renderSegs, splitSegs, splitSegsAux]
  | cons s rest ih =>
    have hs : '/' ∉ s := (hw s (by simp)).2
    obtain ⟨h, tl, h1, h2⟩ := splitSegs_noslash_append s hs (renderSegs rest)
    rw [ih (fun x hx => hw x (by simp [hx]))] at h1
    injection h1 with e1 e2
    subst e1; subst e2
    rw [renderSegs, splitSegs_cons_slash, h2]
    simp

/-- Appending a trailing slash appends one empty segment. -/
theorem splitSegs_append_slash (cs : List Char) :
    splitSegs (cs ++ ['/']) = splitSegs cs ++ [[]] := by
  suffices h : ∀ acc, splitSegsAux (cs ++ ['/']) acc = splitSegsAux cs acc ++ [[]] by
    simpa [splitSegs] using h []
  induction cs with
  | nil => intro acc; simp [splitSegsAux]
  | cons c rest ih =>
    intro acc
    by_cases hc : c = '/' <;> simp [splitSegsAux, hc, ih]

/-! ## The double-slash quirk -/

/-- A double slash produces an empty segment that is neither the leading
segment nor the final (trailing-slash) segment. -/
theorem hds_mem : ∀ cs : List Char, hasDoubleSlash cs = true →
    [] ∈ ((splitSegs cs).dropLast).tail
  | [], h => by simp [hasDoubleSlash] at h
  | [_], h => by simp [hasDoubleSlash] at h
  | c :: d :: rest, h => by
    by_cases hc : c = '/'
    · subst hc
      by_cases hd : d = '/'
      · subst hd
        obtain ⟨h0, t0, h1, -⟩ := splitSegsAux_shape rest []
        rw [splitSegs_cons_slash, splitSegs_cons_slash,
          show splitSegs rest = h0 :: t0 from h1,
          List.dropLast_cons₂, List.dropLast_cons₂]
        simp
      · have h' : hasDoubleSlash (d :: rest) = true := by
          simpa [hasDoubleSlash, hd] using h
        have ih := hds_mem (d :: rest) h'
        obtain ⟨h0, t0, h1, -⟩ := splitSegsAux_shape (d :: rest) []
        rw [show splitSegs (d :: rest) = h0 :: t0 from h1] at ih
        rw [splitSegs_cons_slash, show splitSegs (d :: rest) = h0 :: t0 from h1,
          List.dropLast_cons₂]
        simp only [List.tail_cons]
        exact List.mem_of_mem_tail ih
    · have h' : hasDoubleSlash (d :: rest) = true := by
        simpa [hasDoubleSlash, hc] using h
      have ih := hds_mem (d :: rest) h'
      obtain ⟨h0, t0, h1, h2⟩ := splitSegs_cons_ne c (d :: rest) hc
      rw [h1] at ih
      rw [h2]
      cases t0 with
      | nil => simp at ih
      | cons y ys =>
        rw [List.dropLast_cons₂] at ih ⊢
        simpa using ih

/-- Pattern matching fails on a segment list containing an empty
segment, provided every literal of the pattern is non-empty. -/
theorem patMatch_none_of_nil_mem :
    ∀ (ps : List Pat) (ss : List Seg), (∀ l, Pat.lit l ∈ ps → l ≠ []) →
      [] ∈ ss → patMatch ps ss = none
  | [], ss, _, hss => by
    cases ss with
    | nil => simp at hss
    | cons s ss => rfl
  | p :: ps, [], _, hss => by simp at hss
  | .lit l :: ps, s :: ss, hlit, hss => by
    rw [patMatch]
    by_cases he : s = l
    · subst he
      have hs : s ≠ [] := hlit s (by simp)
      have : [] ∈ ss := by
        rcases List.mem_cons.mp hss with h | h
        · exact absurd h.symm hs
        · exact h
      rw [if_pos rfl]
      exact patMatch_none_of_nil_mem ps ss (fun l' hl' => hlit l' (by simp [hl'])) this
    · rw [if_neg he]
  | .var :: ps, s :: ss, hlit, hss => by
    rw [patMatch]
    by_cases hs : s = []
    · rw [if_pos hs]
    · rw [if_neg hs]
      have : [] ∈ ss := by
        rcases List.mem_cons.mp hss with h | h
        · exact absurd h.symm hs
        · exact h
      rw [patMatch_none_of_nil_mem ps ss (fun l' hl' => hlit l' (by simp [hl'])) this]

/-- The whole scan fails on a segment list containing an empty segment. -/
theorem scanRoutes_none_of_nil_mem :
    ∀ (rs : List Route), (∀ r ∈ rs, ∀ l, Pat.lit l ∈ r.pats → l ≠ []) →
      ∀ (m : Method) (segs : List Seg), [] ∈ segs → scanRoutes rs m segs = none
  | [], _, _, _, _ => rfl
  | r :: rs, hlit, m, segs, hss => by
    rw [scanRoutes, routeMatch]
    rw [patMatch_none_of_nil_mem r.pats segs (hlit r (by simp)) hss]
    have := scanRoutes_none_of_nil_mem rs (fun r' hr' => hlit r' (by simp [hr'])) m segs hss
    by_cases hm : r.method = m <;> simp [hm, this]

/-- Every literal segment of every route of the table is non-empty,
for a well-formed configuration. -/
theorem table_lit_ne_nil (c : Config) (hc : WFConfig c) :
    ∀ r ∈ buildTable c, ∀ l, Pat.lit l ∈ r.pats → l ≠ [] := by
  have hbase : ∀ l, Pat.lit l ∈ (c.mount.map Pat.lit ++ [Pat.lit c.plur]) → l ≠ [] := by
    intro l hl
    rcases List.mem_append.mp hl with h | h
    · obtain ⟨s, hs, he⟩ := List.mem_map.mp h
      injection he with he; subst he
      exact (hc.1 s hs).1
    · simp at h; subst h; exact hc.2.2.1
  intro r hr l hl
  simp only [buildTable, List.mem_cons, List.not_mem_nil, or_false] at hr
  rcases hr with rfl|rfl|rfl|rfl|rfl|rfl|rfl|rfl|rfl|rfl|rfl|rfl <;>
    simp only [] at hl <;>
    rcases List.mem_append.mp hl with h | h <;>
    first
      | exact hbase l h
      | (simp at h; try subst h) <;> first | decide | exact hbase l hl | skip
  all_goals simp_all

/-- The well-formed segments of the tolerance path `{mount}/{plural}/`. -/
theorem splitSegs_tolerance (c : Config) (hc : WFConfig c) :
    splitSegs (pathTolerance c) = [] :: ((c.mount ++ [c.plur]) ++ [[]]) := by
  rw [pathTolerance, splitSegs_append_slash, splitSegs_render]
  · simp
  · intro s hs
    rcases List.mem_append.mp hs with h | h
    · exact hc.1 s h
    · simp at h; subst h; exact hc.2.2

/-- C5: for every HTTP method and every path containing two consecutive
slashes anywhere, matching returns no-match — no route is ever matched
by a path containing `//`. -/
theorem c5_double_slash_never_matches (c : Config) (m : Method) (p : String)
    (hc : WFConfig c) (hp : hasDoubleSlash p.data = true) :
    matchPath c m p = none := by
  have hmem := hds_mem p.data hp
  have hne : p.data ≠ pathTolerance c := by
    intro he
    rw [he, splitSegs_tolerance c hc,
      show ([] : Seg) :: ((c.mount ++ [c.plur]) ++ [[]]) =
        (([] : Seg) :: (c.mount ++ [c.plur])) ++ [[]] by simp,
      List.dropLast_concat, List.tail_cons] at hmem
    rcases List.mem_append.mp hmem with h | h
    · exact (hc.1 [] h).1 rfl
    · simp at h; exact hc.2.2.1 h
  rw [matchPath, if_neg hne]
  obtain ⟨h0, t0, h1, -⟩ := splitSegsAux_shape p.data []
  have h1 : splitSegs p.data = h0 :: t0 := h1
  rw [h1] at hmem ⊢
  cases h0 with
  | cons x xs => rfl
  | nil =>
    cases t0 with
    | nil => simp at hmem
    | cons y ys =>
      rw [List.dropLast_cons₂, List.tail_cons] at hmem
      have hmem' : [] ∈ normTrail (y :: ys) := by
        rw [normTrail]
        by_cases hl : (y :: ys).getLast? = some ([] : Seg)
        · rw [if_pos hl]; exact hmem
        · rw [if_neg hl]; exact List.dropLast_subset _ hmem
      exact scanRoutes_none_of_nil_mem _ (table_lit_ne_nil c hc) m _ hmem'

/-- Witness for C5: the historical example `GET //annotation/` fails to
match under the default configuration. -/
theorem c5_witness :
    WFConfig defaultCfg ∧ hasDoubleSlash "//annotation/".data = true ∧
      matchPath defaultCfg .GET "//annotation/" = none :=
  ⟨by decide, by decide,
    c5_double_slash_never_matches defaultCfg .GET "//annotation/"
      (by decide) (by decide)⟩

/-! ## Evaluation of the scan on the path shapes of the table -/

/-- Matching a shared literal prefix cancels on both sides. -/
theorem patMatch_lit_cancel (ms : List Seg) (ps : List Pat) (ss : List Seg) :
    patMatch (ms.map Pat.lit ++ ps) (ms ++ ss) = patMatch ps ss := by
  induction ms with
  | nil => rfl
  | cons m ms ih => simp [patMatch, ih]

theorem scan_coll_GET (c : Config) :
    scanRoutes (buildTable c) .GET (c.mount ++ [c.plur]) = some ⟨.index, none⟩ := by
  rw [show c.mount ++ [c.plur] = c.mount ++ ([c.plur] ++ []) from by simp]
  simp only [buildTable, scanRoutes, routeMatch, List.append_assoc, patMatch_lit_cancel]
  simp [patMatch]

theorem scan_coll_POST (c : Config) :
    scanRoutes (buildTable c) .POST (c.mount ++ [c.plur]) = some ⟨.create, none⟩ := by
  rw [show c.mount ++ [c.plur] = c.mount ++ ([c.plur] ++ []) from by simp]
  simp only [buildTable, scanRoutes, routeMatch, List.append_assoc, patMatch_lit_cancel]
  simp [patMatch]

theorem scan_coll_OPTIONS (c : Config) :
    scanRoutes (buildTable c) .OPTIONS (c.mount ++ [c.plur]) =
      some ⟨.cors_preflight, none⟩ := by
  rw [show c.mount ++ [c.plur] = c.mount ++ ([c.plur] ++ []) from by simp]
  simp only [buildTable, scanRoutes, routeMatch, List.append_assoc, patMatch_lit_cancel]
  simp [patMatch]

theorem scan_member_GET (c : Config) (x : Seg) (hx : x ≠ [])
    (hs : x ≠ sSearch) (hn : x ≠ sNew) :
    scanRoutes (buildTable c) .GET (c.mount ++ [c.plur, x]) = some ⟨.show, some x⟩ := by
  rw [show c.mount ++ [c.plur, x] = c.mount ++ ([c.plur] ++ [x]) from by simp]
  simp only [buildTable, scanRoutes, routeMatch, List.append_assoc, patMatch_lit_cancel]
  simp [patMatch, hx, hs, hn]

theorem scan_member_PUT (c : Config) (x : Seg) (hx : x ≠ []) :
    scanRoutes (buildTable c) .PUT (c.mount ++ [c.plur, x]) = some ⟨.update, some x⟩ := by
  rw [show c.mount ++ [c.plur, x] = c.mount ++ ([c.plur] ++ [x]) from by simp]
  simp only [buildTable, scanRoutes, routeMatch, List.append_assoc, patMatch_lit_cancel]
  simp [patMatch, hx]

theorem scan_member_POST (c : Config) (x : Seg) (hx : x ≠ []) :
    scanRoutes (buildTable c) .POST (c.mount ++ [c.plur, x]) = some ⟨.update, some x⟩ := by
  rw [show c.mount ++ [c.plur, x] = c.mount ++ ([c.plur] ++ [x]) from by simp]
  simp only [buildTable, scanRoutes, routeMatch, List.append_assoc, patMatch_lit_cancel]
  simp [patMatch, hx]

theorem scan_member_DELETE (c : Config) (x : Seg) (hx : x ≠ []) :
    scanRoutes (buildTable c) .DELETE (c.mount ++ [c.plur, x]) = some ⟨.delete, some x⟩ := by
  rw [show c.mount ++ [c.plur, x] = c.mount ++ ([c.plur] ++ [x]) from by simp]
  simp only [buildTable, scanRoutes, routeMatch, List.append_assoc, patMatch_lit_cancel]
  simp [patMatch, hx]

theorem scan_member_OPTIONS (c : Config) (x : Seg) (hx : x ≠ []) :
    scanRoutes (buildTable c) .OPTIONS (c.mount ++ [c.plur, x]) =
      some ⟨.cors_preflight, some x⟩ := by
  rw [show c.mount ++ [c.plur, x] = c.mount ++ ([c.plur] ++ [x]) from by simp]
  simp only [buildTable, scanRoutes, routeMatch, List.append_assoc, patMatch_lit_cancel]
  simp [patMatch, hx]

theorem scan_search (c : Config) :
    scanRoutes (buildTable c) .GET (c.mount ++ [c.plur, sSearch]) =
      some ⟨.search, none⟩ := by
  rw [show c.mount ++ [c.plur, sSearch] = c.mount ++ ([c.plur] ++ [sSearch]) from by simp]
  simp only [buildTable, scanRoutes, routeMatch, List.append_assoc, patMatch_lit_cancel]
  simp [patMatch]

theorem scan_new (c : Config) :
    scanRoutes (buildTable c) .GET (c.mount ++ [c.plur, sNew]) = some ⟨.new, none⟩ := by
  rw [show c.mount ++ [c.plur, sNew] = c.mount ++ ([c.plur] ++ [sNew]) from by simp]
  simp only [buildTable, scanRoutes, routeMatch, List.append_assoc, patMatch_lit_cancel]
  simp [patMatch, show sNew ≠ sSearch from by decide]

theorem scan_edit (c : Config) (x : Seg) (hx : x ≠ []) :
    scanRoutes (buildTable c) .GET (c.mount ++ [c.plur, sEdit, x]) =
      some ⟨.edit, some x⟩ := by
  rw [show c.mount ++ [c.plur, sEdit, x] = c.mount ++ ([c.plur] ++ [sEdit, x]) from by simp]
  simp only [buildTable, scanRoutes, routeMatch, List.append_assoc, patMatch_lit_cancel]
  simp [patMatch, hx]

theorem scan_legacy (c : Config) (x : Seg) (hx : x ≠ []) :
    scanRoutes (buildTable c) .GET (c.mount ++ [c.plur, sDelete, x]) =
      some ⟨.delete, some x⟩ := by
  rw [show c.mount ++ [c.plur, sDelete, x] =
    c.mount ++ ([c.plur] ++ [sDelete, x]) from by simp]
  simp only [buildTable, scanRoutes, routeMatch, List.append_assoc, patMatch_lit_cancel]
  simp [patMatch, hx, show sDelete ≠ sEdit from by decide]

theorem scan_HEAD (c : Config) (segs : List Seg) :
    scanRoutes (buildTable c) .HEAD segs = none := by
  simp [buildTable, scanRoutes, routeMatch]

/-- Matching a rendered well-formed segment list is exactly the table
scan: the tolerance pre-check never fires and no normalization occurs. -/
theorem matchPath_render (c : Config) (hc : WFConfig c) (m : Method)
    (segs : List Seg) (hw : ∀ s ∈ segs, wfSeg s) :
    matchPath c m (⟨renderSegs segs⟩ : String) = scanRoutes (buildTable c) m segs := by
  have hne : (⟨renderSegs segs⟩ : String).data ≠ pathTolerance c := by
    intro he
    have h2 := congrArg splitSegs he
    rw [show (⟨renderSegs segs⟩ : String).data = renderSegs segs from rfl,
      splitSegs_render segs hw, splitSegs_tolerance c hc] at h2
    injection h2 with e1 e2
    have : ([] : Seg) ∈ segs := by rw [e2]; simp
    exact ((hw [] this).1) rfl
  rw [matchPath, if_neg hne,
    show (⟨renderSegs segs⟩ : String).data = renderSegs segs from rfl,
    splitSegs_render segs hw]
  have hnorm : normTrail segs = segs := by
    rw [normTrail]
    by_cases hl : segs.getLast? = some ([] : Seg)
    · exact absurd rfl ((hw [] (List.mem_of_mem_getLast? (by simp [hl]))).1)
    · rw [if_neg hl]
  show scanRoutes (buildTable c) m (normTrail segs) = _
  rw [hnorm]

/-! ## Claims C2 and C6: the legacy delete routes -/

theorem wf_mount_append (c : Config) (hc : WFConfig c) (xs : List Seg)
    (hxs : ∀ s ∈ xs, wfSeg s) : ∀ s ∈ c.mount ++ xs, wfSeg s := by
  intro s hs
  rcases List.mem_append.mp hs with h | h
  · exact hc.1 s h
  · exact hxs s h

/-- C2: for every well-formed configuration the route table contains the
legacy GET verb-in-path delete route; `GET {mount}/{plural}/delete/1`
resolves to action `delete` with id `'1'`, the same action and id as
`DELETE {mount}/{plural}/1`. -/
theorem c2_legacy_get_delete (c : Config) (hc : WFConfig c) :
    legacyDeleteRoute c ∈ buildTable c ∧
    matchPath c .GET
        (⟨renderSegs (c.mount ++ [c.plur, sDelete, "1".data])⟩ : String) =
      some ⟨.delete, some "1".data⟩ ∧
    matchPath c .DELETE (⟨renderSegs (c.mount ++ [c.plur, "1".data])⟩ : String) =
      some ⟨.delete, some "1".data⟩ := by
  have hw3 : ∀ s ∈ [c.plur, sDelete, "1".data], wfSeg s := by
    intro s hs
    simp at hs
    rcases hs with rfl | rfl | rfl
    · exact hc.2.2
    · decide
    · decide
  have hw2 : ∀ s ∈ [c.plur, "1".data], wfSeg s := by
    intro s hs
    simp at hs
    rcases hs with rfl | rfl
    · exact hc.2.2
    · decide
  refine ⟨?_, ?_, ?_⟩
  · simp [legacyDeleteRoute, buildTable]
  · rw [matchPath_render c hc _ _ (wf_mount_append c hc _ hw3)]
    exact scan_legacy c _ (by decide)
  · rw [matchPath_render c hc _ _ (wf_mount_append c hc _ hw2)]
    exact scan_member_DELETE c _ (by decide)

/-- Witness for C2 at the default configuration. -/
theorem c2_witness :
    legacyDeleteRoute defaultCfg ∈ buildTable defaultCfg ∧
    matchPath defaultCfg .GET
        (⟨renderSegs (defaultCfg.mount ++ [defaultCfg.plur, sDelete, "1".data])⟩ :
          String) =
      some ⟨.delete, some "1".data⟩ ∧
    matchPath defaultCfg .DELETE
        (⟨renderSegs (defaultCfg.mount ++ [defaultCfg.plur, "1".data])⟩ : String) =
      some ⟨.delete, some "1".data⟩ :=
  c2_legacy_get_delete defaultCfg (by decide)

/-- C6: for every well-formed configuration and every method, the exact
path `{mount}/{plural}/` (trailing slash) matches with action `delete`
and a null id — not a match failure and not an empty-string id.  The
tolerance is a one-off: the same trailing-slash treatment on the legacy
delete-by-GET pattern itself (`{mount}/{plural}/delete/`) does NOT
produce a null-id delete; after normalization it resolves to `show`
with id `'delete'`. -/
theorem c6_trailing_slash_tolerance (c : Config) (hc : WFConfig c) (m : Method) :
    matchPath c m (⟨pathTolerance c⟩ : String) = some ⟨.delete, none⟩ ∧
    matchPath c .GET
        (⟨renderSegs (c.mount ++ [c.plur, sDelete]) ++ ['/']⟩ : String) =
      some ⟨.show, some sDelete⟩ := by
  have hw : ∀ s ∈ c.mount ++ [c.plur, sDelete], wfSeg s := by
    refine wf_mount_append c hc _ ?_
    intro s hs
    simp at hs
    rcases hs with rfl | rfl
    · exact hc.2.2
    · decide
  constructor
  · rw [matchPath, if_pos rfl]
  · have hne :
        (⟨renderSegs (c.mount ++ [c.plur, sDelete]) ++ ['/']⟩ : String).data ≠
          pathTolerance c := by
      intro he
      have h2 := congrArg splitSegs he
      rw [show (⟨renderSegs (c.mount ++ [c.plur, sDelete]) ++ ['/']⟩ : String).data =
            renderSegs (c.mount ++ [c.plur, sDelete]) ++ ['/'] from rfl,
        splitSegs_append_slash, splitSegs_render _ hw,
        splitSegs_tolerance c hc] at h2
      have h3 := congrArg List.length h2
      simp at h3
    rw [matchPath, if_neg hne,
      show (⟨renderSegs (c.mount ++ [c.plur, sDelete]) ++ ['/']⟩ : String).data =
        renderSegs (c.mount ++ [c.plur, sDelete]) ++ ['/'] from rfl,
      splitSegs_append_slash, splitSegs_render _ hw, List.cons_append]
    show scanRoutes (buildTable c) .GET
        (normTrail ((c.mount ++ [c.plur, sDelete]) ++ [[]])) = _
    rw [normTrail, if_pos (by simp), List.dropLast_concat]
    exact scan_member_GET c sDelete (by decide) (by decide) (by decide)

/-- Witness for C6 at the default configuration with method DELETE (the
method the legacy test uses). -/
theorem c6_witness :
    matchPath defaultCfg .DELETE (⟨pathTolerance defaultCfg⟩ : String) =
      some ⟨.delete, none⟩ ∧
    matchPath defaultCfg .GET
        (⟨renderSegs (defaultCfg.mount ++ [defaultCfg.plur, sDelete]) ++ ['/']⟩ :
          String) =
      some ⟨.show, some sDelete⟩ :=
  c6_trailing_slash_tolerance defaultCfg (by decide) .DELETE

/-! ## Claim C7: the round-trip law -/

theorem any_var_map_lit (ms : List Seg) :
    ((ms.map Pat.lit).any fun p =>
      match p with | Pat.var => true | Pat.lit _ => false) = false := by
  induction ms with
  | nil => rfl
  | cons s ms ih => simp [ih]

theorem map_subst_lit (g : Seg) (ms : List Seg) :
    List.map ((fun p => match p with | Pat.lit l => l | Pat.var => g) ∘ Pat.lit) ms
      = ms := by
  induction ms with
  | nil => rfl
  | cons s ms ih => simp_all

/-- C7 counterexample: the round-trip law fails as stated.  On the `show`
route of the default table, the valid binding `id := 'search'` generates
the path `/annotations/search`, which matches back to the `search`
action with no id — not to `show` with `id = 'search'`. -/
theorem c7_roundtrip_counterexample :
    (⟨.GET, [Pat.lit defaultCfg.plur, .var], .show⟩ : Route) ∈ buildTable defaultCfg ∧
    generate defaultCfg .show (some sSearch) (some .GET) =
      some [defaultCfg.plur, sSearch] ∧
    matchPath defaultCfg .GET (⟨renderSegs [defaultCfg.plur, sSearch]⟩ : String) =
      some ⟨.search, none⟩ ∧
    (⟨.search, none⟩ : MatchResult) ≠ ⟨.show, some sSearch⟩ :=
  ⟨by decide, by decide, by decide, by decide⟩

/-- C7 (amended): the round-trip law holds for every route of the table
and every well-formed binding of its path parameters, except that on the
GET show route the bound id must not collide with the literal segments
`search` and `new` claimed by the more specific sibling routes. -/
theorem c7_roundtrip_amended (c : Config) (hc : WFConfig c) (r : Route)
    (hr : r ∈ buildTable c) (idv : Option Seg)
    (hneed : needsId r = idv.isSome)
    (hwf : ∀ x, idv = some x → wfSeg x)
    (hexcl : r.action = .show → idv ≠ some sSearch ∧ idv ≠ some sNew) :
    ∃ segs, generate c r.action idv (some r.method) = some segs ∧
      matchPath c r.method (⟨renderSegs segs⟩ : String) = some ⟨r.action, idv⟩ := by
  have hwColl : ∀ s ∈ c.mount ++ [c.plur], wfSeg s := by
    refine wf_mount_append c hc _ ?_
    intro s hs; simp at hs; subst hs; exact hc.2.2
  have hwMem : ∀ x : Seg, wfSeg x → ∀ s ∈ c.mount ++ [c.plur, x], wfSeg s := by
    intro x hx
    refine wf_mount_append c hc _ ?_
    intro s hs; simp at hs
    rcases hs with rfl | rfl
    · exact hc.2.2
    · exact hx
  have hwVerb : ∀ x y : Seg, wfSeg x → wfSeg y →
      ∀ s ∈ c.mount ++ [c.plur, x, y], wfSeg s := by
    intro x y hx hy
    refine wf_mount_append c hc _ ?_
    intro s hs; simp at hs
    rcases hs with rfl | rfl | rfl
    · exact hc.2.2
    · exact hx
    · exact hy
  simp only [buildTable, List.mem_cons, List.not_mem_nil, or_false] at hr
  rcases hr with rfl|rfl|rfl|rfl|rfl|rfl|rfl|rfl|rfl|rfl|rfl|rfl
  · -- GET search
    obtain rfl : idv = none := by
      cases idv with
      | none => rfl
      | some x => simp [needsId, List.any_append, any_var_map_lit] at hneed
    refine ⟨c.mount ++ [c.plur, sSearch], ?_, ?_⟩
    · simp [generate, genTable, needsId, List.find?, substPats, List.any_append,
        any_var_map_lit, map_subst_lit]
    · rw [matchPath_render c hc _ _ (hwMem sSearch (by decide))]
      exact scan_search c
  · -- GET new
    obtain rfl : idv = none := by
      cases idv with
      | none => rfl
      | some x => simp [needsId, List.any_append, any_var_map_lit] at hneed
    refine ⟨c.mount ++ [c.plur, sNew], ?_, ?_⟩
    · simp [generate, genTable, needsId, List.find?, substPats, List.any_append,
        any_var_map_lit, map_subst_lit]
    · rw [matchPath_render c hc _ _ (hwMem sNew (by decide))]
      exact scan_new c
  · -- GET edit/{id}
    obtain ⟨x, rfl⟩ : ∃ x, idv = some x := by
      cases idv with
      | some x => exact ⟨x, rfl⟩
      | none => simp [needsId, List.any_append, any_var_map_lit] at hneed
    have hx := hwf x rfl
    refine ⟨c.mount ++ [c.plur, sEdit, x], ?_, ?_⟩
    · simp [generate, genTable, needsId, List.find?, substPats, List.any_append,
        any_var_map_lit, map_subst_lit]
    · rw [matchPath_render c hc _ _ (hwVerb sEdit x (by decide) hx)]
      exact scan_edit c x hx.1
  · -- GET delete/{id} (legacy)
    obtain ⟨x, rfl⟩ : ∃ x, idv = some x := by
      cases idv with
      | some x => exact ⟨x, rfl⟩
      | none => simp [needsId, List.any_append, any_var_map_lit] at hneed
    have hx := hwf x rfl
    refine ⟨c.mount ++ [c.plur, sDelete, x], ?_, ?_⟩
    · simp [generate, genTable, needsId, List.find?, substPats, List.any_append,
        any_var_map_lit, map_subst_lit]
    · rw [matchPath_render c hc _ _ (hwVerb sDelete x (by decide) hx)]
      exact scan_legacy c x hx.1
  · -- GET collection (index)
    obtain rfl : idv = none := by
      cases idv with
      | none => rfl
      | some x => simp [needsId, List.any_append, any_var_map_lit] at hneed
    refine ⟨c.mount ++ [c.plur], ?_, ?_⟩
    · simp [generate, genTable, needsId, List.find?, substPats, List.any_append,
        any_var_map_lit, map_subst_lit]
    · rw [matchPath_render c hc _ _ hwColl]
      exact scan_coll_GET c
  · -- POST collection (create)
    obtain rfl : idv = none := by
      cases idv with
      | none => rfl
      | some x => simp [needsId, List.any_append, any_var_map_lit] at hneed
    refine ⟨c.mount ++ [c.plur], ?_, ?_⟩
    · simp [generate, genTable, needsId, List.find?, substPats, List.any_append,
        any_var_map_lit, map_subst_lit]
    · rw [matchPath_render c hc _ _ hwColl]
      exact scan_coll_POST c
  · -- GET member (show)
    obtain ⟨x, rfl⟩ : ∃ x, idv = some x := by
      cases idv with
      | some x => exact ⟨x, rfl⟩
      | none => simp [needsId, List.any_append, any_var_map_lit] at hneed
    have hx := hwf x rfl
    obtain ⟨hxs, hxn⟩ := hexcl rfl
    refine ⟨c.mount ++ [c.plur, x], ?_, ?_⟩
    · simp [generate, genTable, needsId, List.find?, substPats, List.any_append,
        any_var_map_lit, map_subst_lit]
    · rw [matchPath_render c hc _ _ (hwMem x hx)]
      exact scan_member_GET c x hx.1 (fun h => hxs (by rw [h]))
        (fun h => hxn (by rw [h]))
  · -- PUT member (update)
    obtain ⟨x, rfl⟩ : ∃ x, idv = some x := by
      cases idv with
      | some x => exact ⟨x, rfl⟩
      | none => simp [needsId, List.any_append, any_var_map_lit] at hneed
    have hx := hwf x rfl
    refine ⟨c.mount ++ [c.plur, x], ?_, ?_⟩
    · simp [generate, genTable, needsId, List.find?, substPats, List.any_append,
        any_var_map_lit, map_subst_lit]
    · rw [matchPath_render c hc _ _ (hwMem x hx)]
      exact scan_member_PUT c x hx.1
  · -- POST member (update)
    obtain ⟨x, rfl⟩ : ∃ x, idv = some x := by
      cases idv with
      | some x => exact ⟨x, rfl⟩
      | none => simp [needsId, List.any_append, any_var_map_lit] at hneed
    have hx := hwf x rfl
    refine ⟨c.mount ++ [c.plur, x], ?_, ?_⟩
    · simp [generate, genTable, needsId, List.find?, substPats, List.any_append,
        any_var_map_lit, map_subst_lit]
    · rw [matchPath_render c hc _ _ (hwMem x hx)]
      exact scan_member_POST c x hx.1
  · -- DELETE member (delete)
    obtain ⟨x, rfl⟩ : ∃ x, idv = some x := by
      cases idv with
      | some x => exact ⟨x, rfl⟩
      | none => simp [needsId, List.any_append, any_var_map_lit] at hneed
    have hx := hwf x rfl
    refine ⟨c.mount ++ [c.plur, x], ?_, ?_⟩
    · simp [generate, genTable, needsId, List.find?, substPats, List.any_append,
        any_var_map_lit, map_subst_lit]
    · rw [matchPath_render c hc _ _ (hwMem x hx)]
      exact scan_member_DELETE c x hx.1
  · -- OPTIONS collection (cors)
    obtain rfl : idv = none := by
      cases idv with
      | none => rfl
      | some x => simp [needsId, List.any_append, any_var_map_lit] at hneed
    refine ⟨c.mount ++ [c.plur], ?_, ?_⟩
    · simp [generate, genTable, needsId, List.find?, substPats, List.any_append,
        any_var_map_lit, map_subst_lit]
    · rw [matchPath_render c hc _ _ hwColl]
      exact scan_coll_OPTIONS c
  · -- OPTIONS member (cors)
    obtain ⟨x, rfl⟩ : ∃ x, idv = some x := by
      cases idv with
      | some x => exact ⟨x, rfl⟩
      | none => simp [needsId, List.any_append, any_var_map_lit] at hneed
    have hx := hwf x rfl
    refine ⟨c.mount ++ [c.plur, x], ?_, ?_⟩
    · simp [generate, genTable, needsId, List.find?, substPats, List.any_append,
        any_var_map_lit, map_subst_lit]
    · rw [matchPath_render c hc _ _ (hwMem x hx)]
      exact scan_member_OPTIONS c x hx.1

/-- Witness for the amended C7: the show route with the binding
`id := '1'` round-trips under the default configuration. -/
theorem c7_witness :
    ∃ segs, generate defaultCfg .show (some "1".data) (some .GET) = some segs ∧
      matchPath defaultCfg .GET (⟨renderSegs segs⟩ : String) =
        some ⟨.show, some "1".data⟩ :=
  c7_roundtrip_amended defaultCfg (by decide)
    ⟨.GET, (defaultCfg.mount.map Pat.lit ++ [Pat.lit defaultCfg.plur]) ++ [.var],
      .show⟩
    (by simp [buildTable]) (some "1".data) (by decide)
    (by intro x hx; injection hx with hx; subst hx; decide)
    (by intro h; exact ⟨by decide, by decide⟩)

/-! ## Claim C4: the create Location header -/

/-- A non-default configuration exercising the hardcoded route name. -/
def foobarCfg : Config := ⟨[], "foobar".data, "foobars".data⟩

/-- C4 counterexample: the claim fails for a configured resource name
other than the default.  With resource name `('foobar', 'foobars')` a
create succeeds with status 303, but the `Location` generation uses the
hardcoded route name `'annotation'` (`store.py:145`), which names no
route of this table, so no show URL is produced. -/
theorem c4_create_location_counterexample :
    WFConfig foobarCfg ∧
    createHandler foobarCfg ⟨[], "1".data⟩ (.obj [("text", "a")]) =
      some (⟨[⟨"1".data, [("text", "a")]⟩], "1".data⟩, ⟨303, none⟩) :=
  ⟨by decide, by decide⟩

/-- C4 (amended): for every well-formed configuration whose singular
resource name is `'annotation'` (the default), a successful create
responds 303 and its Location header is exactly the member path of the
new entity, which `matchPath` resolves to `show` with the new id. -/
theorem c4_create_location_amended (c : Config) (st : Store)
    (d : List (String × String)) (hc : WFConfig c) (hsing : c.sing = annoName)
    (hid : wfSeg st.freshId) (hids : st.freshId ≠ sSearch)
    (hidn : st.freshId ≠ sNew) :
    createHandler c st (.obj d) =
      some (⟨st.annos ++ [⟨st.freshId, d⟩], st.freshId⟩,
        ⟨303, some (⟨renderSegs (c.mount ++ [c.plur, st.freshId])⟩ : String)⟩) ∧
    matchPath c .GET (⟨renderSegs (c.mount ++ [c.plur, st.freshId])⟩ : String) =
      some ⟨.show, some st.freshId⟩ := by
  constructor
  · simp [createHandler, fromDict, urlByName, hsing]
  · have hw : ∀ s ∈ c.mount ++ [c.plur, st.freshId], wfSeg s := by
      refine wf_mount_append c hc _ ?_
      intro s hs
      simp at hs
      rcases hs with rfl | rfl
      · exact hc.2.2
      · exact hid
    rw [matchPath_render c hc _ _ hw]
    exact scan_member_GET c _ hid.1 hids hidn

/-- Witness for the amended C4 at the default configuration. -/
theorem c4_witness :
    createHandler defaultCfg ⟨[], "1".data⟩ (.obj [("text", "a")]) =
      some (⟨[⟨"1".data, [("text", "a")]⟩], "1".data⟩,
        ⟨303, some (⟨renderSegs (defaultCfg.mount ++
          [defaultCfg.plur, "1".data])⟩ : String)⟩) ∧
    matchPath defaultCfg .GET
        (⟨renderSegs (defaultCfg.mount ++ [defaultCfg.plur, "1".data])⟩ : String) =
      some ⟨.show, some "1".data⟩ :=
  c4_create_location_amended defaultCfg ⟨[], "1".data⟩ [("text", "a")]
    (by decide) (by decide) (by decide) (by decide) (by decide)

/-! ## Claim C1: create with a JSON list payload -/

/-- C1: `create` with a JSON list payload of two objects persists
exactly one entity — the one deserialized from the LAST list element —
because the loop at `store.py:136-137` rebinds `anno` and only the
final binding reaches `session.add` (line 141).  The claim (and the
spec) say one entity per list element. -/
theorem c1_list_create_persists_last_only :
    (createHandler defaultCfg ⟨[], "1".data⟩
        (.arr [[("text", "a")], [("text", "b")]])).map
      (fun r => (r.1.annos.length, r.1.annos.map (fun a => a.fields))) =
      some (1, [[("text", "b")]]) := by decide

/-! ## Claim C3: constructor validation -/

/-- C3 counterexample: constructing the store with an empty mount point
raises no `ConfigurationError` (no such type exists in the code); the
mount point is silently normalized to `'/'` and construction succeeds. -/
theorem c3_no_configuration_error :
    initStore "" ["annotation", "annotations"] =
      .ok ("/", "annotation", "annotations") := rfl

/-- C3 (amended): the constructor performs no validation of emptiness.
Any two-element resource name — empty strings included — is accepted,
with the mount point normalized to start with a slash (an empty mount
point becomes `'/'`); a resource name not of length two fails with the
tuple-unpacking `ValueError`, not a `ConfigurationError`. -/
theorem c3_init_amended (mp : String) (rn : List String) :
    (∀ s p, rn = [s, p] → initStore mp rn = .ok (normMount mp, s, p)) ∧
    (rn.length ≠ 2 → initStore mp rn = .error .valueError) ∧
    normMount "" = "/" := by
  refine ⟨?_, ?_, rfl⟩
  · intro s p h
    subst h
    rfl
  · intro h
    cases rn with
    | nil => rfl
    | cons a t =>
      cases t with
      | nil => rfl
      | cons b t2 =>
        cases t2 with
        | nil => exact absurd rfl h
        | cons e t3 => rfl

/-- Witness for the amended C3: empty mount point and empty name strings
are accepted; a one-element resource name fails with `ValueError`. -/
theorem c3_witness :
    initStore "" ["", ""] = .ok (normMount "", "", "") ∧
    initStore "/api" ["only"] = .error .valueError :=
  ⟨(c3_init_amended "" ["", ""]).1 "" "" rfl,
    (c3_init_amended "/api" ["only"]).2.1 (by decide)⟩

/-! ## Claim C8: search limits -/

/-- C8: `limit=-1` returns all matching rows (and `total` is the full
matching count); `limit=1` returns exactly one row whenever at least one
row matches, while `total` still equals the full matching count. -/
theorem c8_search_limit (st : Store) (flt : List (String × String)) (af : Bool)
    (hne : 1 ≤ (st.annos.filter (annoMatches flt)).length) :
    ((searchAction st flt 0 (-1) af).results.length =
        (st.annos.filter (annoMatches flt)).length ∧
      (searchAction st flt 0 (-1) af).total =
        (st.annos.filter (annoMatches flt)).length) ∧
    ((searchAction st flt 0 1 af).results.length = 1 ∧
      (searchAction st flt 0 1 af).total =
        (st.annos.filter (annoMatches flt)).length) := by
  refine ⟨⟨?_, rfl⟩, ?_, rfl⟩
  · simp [searchAction]
  · simp [searchAction]
    omega

/-- Witness for C8 on a store of three entities, two matching the
filter. -/
theorem c8_witness :
    ((searchAction ⟨[⟨"1".data, [("uri", "u")]⟩, ⟨"2".data, [("uri", "u")]⟩,
          ⟨"3".data, [("uri", "v")]⟩], "9".data⟩
        [("uri", "u")] 0 (-1) false).results.length = 2 ∧
      (searchAction ⟨[⟨"1".data, [("uri", "u")]⟩, ⟨"2".data, [("uri", "u")]⟩,
          ⟨"3".data, [("uri", "v")]⟩], "9".data⟩
        [("uri", "u")] 0 (-1) false).total = 2) ∧
    ((searchAction ⟨[⟨"1".data, [("uri", "u")]⟩, ⟨"2".data, [("uri", "u")]⟩,
          ⟨"3".data, [("uri", "v")]⟩], "9".data⟩
        [("uri", "u")] 0 1 false).results.length = 1 ∧
      (searchAction ⟨[⟨"1".data, [("uri", "u")]⟩, ⟨"2".data, [("uri", "u")]⟩,
          ⟨"3".data, [("uri", "v")]⟩], "9".data⟩
        [("uri", "u")] 0 1 false).total = 2) := by
  have h := c8_search_limit
    ⟨[⟨"1".data, [("uri", "u")]⟩, ⟨"2".data, [("uri", "u")]⟩,
      ⟨"3".data, [("uri", "v")]⟩], "9".data⟩
    [("uri", "u")] false (by decide)
  have he : (([⟨"1".data, [("uri", "u")]⟩, ⟨"2".data, [("uri", "u")]⟩,
      ⟨"3".data, [("uri", "v")]⟩] : List Anno).filter
        (annoMatches [("uri", "u")])).length = 2 := by decide
  rw [he] at h
  exact h

/-! ## Claim C9: the format check precedes dispatch -/

/-- C9: whenever the `format` query parameter is present and differs
from `'json'`, the response status is 500 — for every method, path and
store state, whether or not the path matches any route. -/
theorem c9_bad_format_is_500 (c : Config) (st : Store) (req : Request)
    (f : String) (hf : req.fmt = some f) (hne : f ≠ "json") :
    (handleRequest c st req).2.status = 500 := by
  simp [handleRequest, hf, hne]

/-- Witness for C9: a request whose path matches no route and whose
format is `'xml'` yields 500, not 404. -/
theorem c9_witness :
    matchPath defaultCfg .GET "/nope" = none ∧
    (handleRequest defaultCfg ⟨[], "1".data⟩
        ⟨.GET, "/nope", some "xml", none, [], [], 0, 100, false⟩).2.status = 500 :=
  ⟨by decide,
    c9_bad_format_is_500 defaultCfg ⟨[], "1".data⟩
      ⟨.GET, "/nope", some "xml", none, [], [], 0, 100, false⟩ "xml" rfl
      (by decide)⟩

/-! ## Claim C10: the index cap -/

/-- C10: the index listing contains at most 100 entries, regardless of
how many entities exist in the store. -/
theorem c10_index_capped_at_100 (st : Store) : (indexAction st).length ≤ 100 := by
  simp [indexAction]

end AnnStore
